import Mathlib

/-!
Verification of the sliding-window rate limiter and the /chat request
handler of `app.py` (a single-file Flask relay to an external chat
completion service).

Shallow embedding conventions:
* Wall-clock timestamps (Python `time.time()` floats) are modelled as
  exact rationals `ℚ`.
* A client's window (`deque` of timestamps in `request_log`) is a
  `List ℚ`, oldest first; `popleft` removes the list head, `append`
  adds at the tail.
* The global `request_log` (a `defaultdict(deque)`) is a total function
  `String → List ℚ` whose default value is the empty list.
* `check_rate_limit` receives the window and `now` explicitly instead of
  reading a global clock, and returns the decision together with the
  mutated window.
-/

/-- `RATE_LIMIT_WINDOW = 60 * 60` seconds, from app.py line 15. -/
def RATE_LIMIT_WINDOW : ℚ := 60 * 60

/-- `RATE_LIMIT_MAX = 120` requests per window, from app.py line 16. -/
def RATE_LIMIT_MAX : ℕ := 120

/-- The pruning loop of `check_rate_limit` (app.py lines 37–38):
`while q and q[0] <= now - RATE_LIMIT_WINDOW: q.popleft()`. -/
def prune (now : ℚ) : List ℚ → List ℚ
  | [] => []
  | t :: rest =>
    if t ≤ now - RATE_LIMIT_WINDOW then prune now rest else t :: rest

/-- `check_rate_limit` (app.py lines 33–42), with the window and `now`
passed explicitly.  Returns `((allowed, retry_after), new_window)`:
the Python function returns `(False, RATE_LIMIT_WINDOW - (now - q[0]))`
when the pruned window is full and `(True, None)` after appending `now`
otherwise.  `q[0]` is modelled as `headD 0`; the deny branch guarantees
the pruned window is nonempty (its length is at least 120). -/
def check_rate_limit (w : List ℚ) (now : ℚ) : (Bool × Option ℚ) × List ℚ :=
  let q := prune now w
  if RATE_LIMIT_MAX ≤ q.length then
    ((false, some (RATE_LIMIT_WINDOW - (now - q.headD 0))), q)
  else
    ((true, none), q ++ [now])

/-- The pruning loop removes exactly the longest expired front segment. -/
theorem prune_eq_dropWhile (now : ℚ) (w : List ℚ) :
    prune now w = w.dropWhile (fun t => decide (t ≤ now - RATE_LIMIT_WINDOW)) := by
  induction w with
  | nil => rfl
  | cons t rest ih =>
    by_cases h : t ≤ now - RATE_LIMIT_WINDOW
    · simp [prune, h, ih]
    · simp [prune, h]

/-- C1: `check_rate_limit` first drops from the front every timestamp
`t ≤ now - RATE_LIMIT_WINDOW`; if the pruned window already holds
`RATE_LIMIT_MAX` entries it returns Deny (`allowed = false`) with
`retry_after = RATE_LIMIT_WINDOW - (now - oldest_remaining)` and appends
nothing, otherwise it appends `now` and returns Admit
(`allowed = true`). -/
theorem check_rate_limit_behavior (w : List ℚ) (now : ℚ) :
    (RATE_LIMIT_MAX ≤ (w.dropWhile fun t => decide (t ≤ now - RATE_LIMIT_WINDOW)).length →
      check_rate_limit w now =
        ((false, some (RATE_LIMIT_WINDOW -
            (now - (w.dropWhile fun t => decide (t ≤ now - RATE_LIMIT_WINDOW)).headD 0))),
          w.dropWhile fun t => decide (t ≤ now - RATE_LIMIT_WINDOW))) ∧
    ((w.dropWhile fun t => decide (t ≤ now - RATE_LIMIT_WINDOW)).length < RATE_LIMIT_MAX →
      check_rate_limit w now =
        ((true, none),
          (w.dropWhile fun t => decide (t ≤ now - RATE_LIMIT_WINDOW)) ++ [now])) := by
  constructor
  · intro h
    simp [check_rate_limit, prune_eq_dropWhile, h]
  · intro h
    simp [check_rate_limit, prune_eq_dropWhile, Nat.not_le.mpr h]

/-- Witness for C1: a concrete call on an empty window at time 0 is
admitted and records the timestamp. -/
theorem check_rate_limit_behavior_w :
    (([] : List ℚ).dropWhile fun t => decide (t ≤ (0 : ℚ) - RATE_LIMIT_WINDOW)).length <
        RATE_LIMIT_MAX ∧
      check_rate_limit [] 0 = ((true, none), [0]) := by
  refine ⟨by decide, ?_⟩
  have h := (check_rate_limit_behavior [] 0).2 (by decide)
  simpa using h

/-- Every timestamp surviving the pruning loop was in the window. -/
theorem mem_prune {now t : ℚ} {w : List ℚ} (h : t ∈ prune now w) : t ∈ w := by
  induction w with
  | nil => simpa [prune] using h
  | cons a rest ih =>
    by_cases ha : a ≤ now - RATE_LIMIT_WINDOW
    · simp only [prune, if_pos ha] at h
      exact List.mem_cons_of_mem a (ih h)
    · simpa [prune, ha] using h

/-- Pruning never lengthens the window. -/
theorem prune_length_le (now : ℚ) (w : List ℚ) :
    (prune now w).length ≤ w.length := by
  induction w with
  | nil => simp [prune]
  | cons a rest ih =>
    by_cases ha : a ≤ now - RATE_LIMIT_WINDOW
    · simp only [prune, if_pos ha]
      exact le_trans ih (Nat.le_succ _)
    · simp [prune, ha]

/-- Pruning preserves sortedness (it removes a prefix). -/
theorem prune_sorted {now : ℚ} {w : List ℚ} (h : List.Sorted (· ≤ ·) w) :
    List.Sorted (· ≤ ·) (prune now w) := by
  induction w with
  | nil => simpa [prune] using h
  | cons a rest ih =>
    by_cases ha : a ≤ now - RATE_LIMIT_WINDOW
    · simp only [prune, if_pos ha]
      exact ih (List.Sorted.of_cons h)
    · simpa [prune, ha] using h

/-- If the pruned window is nonempty, its head is not expired. -/
theorem prune_head (now : ℚ) (w : List ℚ) :
    prune now w = [] ∨ ¬ (prune now w).headD 0 ≤ now - RATE_LIMIT_WINDOW := by
  induction w with
  | nil => exact Or.inl rfl
  | cons a rest ih =>
    by_cases ha : a ≤ now - RATE_LIMIT_WINDOW
    · simpa [prune, ha] using ih
    · right
      simpa [prune, ha] using ha

/-- In a sorted window, every surviving timestamp is strictly inside the
trailing window. -/
theorem prune_mem_gt {now : ℚ} {w : List ℚ} (hs : List.Sorted (· ≤ ·) w) :
    ∀ t ∈ prune now w, now - RATE_LIMIT_WINDOW < t := by
  induction w with
  | nil => simp [prune]
  | cons a rest ih =>
    by_cases ha : a ≤ now - RATE_LIMIT_WINDOW
    · simp only [prune, if_pos ha]
      exact ih (List.Sorted.of_cons hs)
    · intro t ht
      simp only [prune, if_neg ha] at ht
      rcases List.mem_cons.mp ht with rfl | htr
      · exact lt_of_not_ge ha
      · exact lt_of_lt_of_le (lt_of_not_ge ha) (List.rel_of_sorted_cons hs t htr)

/-- If nothing in the window is expired, pruning is the identity. -/
theorem prune_of_not_expired {now : ℚ} {w : List ℚ}
    (h : ∀ t ∈ w, ¬ t ≤ now - RATE_LIMIT_WINDOW) : prune now w = w := by
  cases w with
  | nil => rfl
  | cons a rest => simp [prune, h a (List.mem_cons_self a rest)]

/-- The head of a nonempty list is one of its members. -/
theorem headD_mem {l : List ℚ} (h : l ≠ []) : l.headD 0 ∈ l := by
  cases l with
  | nil => exact absurd rfl h
  | cons a rest => exact List.mem_cons_self a rest

/-- One `check_rate_limit` call, starting from a sorted window of past
timestamps (all at most `now`) holding at most `RATE_LIMIT_MAX` entries,
leaves a window whose timestamps are strictly within the trailing window,
still sorted, still at most `now`, and still at most `RATE_LIMIT_MAX`. -/
theorem check_rate_limit_post {w : List ℚ} {now : ℚ}
    (hs : List.Sorted (· ≤ ·) w) (hub : ∀ t ∈ w, t ≤ now)
    (hlen : w.length ≤ RATE_LIMIT_MAX) :
    (∀ t ∈ (check_rate_limit w now).2, now - RATE_LIMIT_WINDOW < t) ∧
      List.Sorted (· ≤ ·) (check_rate_limit w now).2 ∧
      (∀ t ∈ (check_rate_limit w now).2, t ≤ now) ∧
      (check_rate_limit w now).2.length ≤ RATE_LIMIT_MAX := by
  by_cases hfull : RATE_LIMIT_MAX ≤ (prune now w).length
  · have h2 : (check_rate_limit w now).2 = prune now w := by
      simp [check_rate_limit, hfull]
    rw [h2]
    exact ⟨prune_mem_gt hs, prune_sorted hs,
      fun t ht => hub t (mem_prune ht),
      le_trans (prune_length_le now w) hlen⟩
  · have h2 : (check_rate_limit w now).2 = prune now w ++ [now] := by
      simp [check_rate_limit, hfull]
    rw [h2]
    have hWpos : (0 : ℚ) < RATE_LIMIT_WINDOW := by norm_num [RATE_LIMIT_WINDOW]
    refine ⟨?_, ?_, ?_, ?_⟩
    · intro t ht
      rcases List.mem_append.mp ht with h | h
      · exact prune_mem_gt hs t h
      · have : t = now := by simpa using h
        subst this
        linarith
    · refine (List.pairwise_append).mpr ⟨prune_sorted hs, by simp, ?_⟩
      intro x hx y hy
      have : y = now := by simpa using hy
      subst this
      exact hub x (mem_prune hx)
    · intro t ht
      rcases List.mem_append.mp ht with h | h
      · exact hub t (mem_prune h)
      · have : t = now := by simpa using h
        simp [this]
    · have := Nat.lt_of_not_le hfull
      simpa using Nat.succ_le_of_lt this

/-- Runs `check_rate_limit` once per listed call time, threading the
window; returns the list of `allowed` flags and the final window. -/
def runChecks (w : List ℚ) : List ℚ → List Bool × List ℚ
  | [] => ([], w)
  | t :: ts =>
    let r := check_rate_limit w t
    let rest := runChecks r.2 ts
    (r.1.1 :: rest.1, rest.2)

/-- Invariant propagation along a non-decreasing call trace. -/
theorem runChecks_inv :
    ∀ (ts : List ℚ) (now : ℚ) (w : List ℚ),
      List.Sorted (· ≤ ·) w →
      (∀ t ∈ w, ∀ u ∈ ts ++ [now], t ≤ u) →
      List.Sorted (· ≤ ·) (ts ++ [now]) →
      w.length ≤ RATE_LIMIT_MAX →
      (∀ t ∈ (runChecks w (ts ++ [now])).2, now - RATE_LIMIT_WINDOW < t) ∧
        List.Sorted (· ≤ ·) (runChecks w (ts ++ [now])).2 ∧
        (runChecks w (ts ++ [now])).2.length ≤ RATE_LIMIT_MAX := by
  intro ts
  induction ts with
  | nil =>
    intro now w hs hub _ hlen
    have hub' : ∀ t ∈ w, t ≤ now := fun t ht => hub t ht now (by simp)
    have h := check_rate_limit_post hs hub' hlen
    exact ⟨by simpa [runChecks] using h.1, by simpa [runChecks] using h.2.1,
      by simpa [runChecks] using h.2.2.2⟩
  | cons t ts ih =>
    intro now w hs hub hsort hlen
    have hub1 : ∀ u ∈ w, u ≤ t := fun u hu => hub u hu t (by simp)
    have hpost := check_rate_limit_post hs hub1 hlen
    have hsort' : List.Sorted (· ≤ ·) (ts ++ [now]) := List.Sorted.of_cons hsort
    have htle : ∀ u ∈ ts ++ [now], t ≤ u := by
      intro u hu
      exact List.rel_of_sorted_cons hsort u hu
    have hub' : ∀ x ∈ (check_rate_limit w t).2, ∀ u ∈ ts ++ [now], x ≤ u := by
      intro x hx u hu
      exact le_trans (hpost.2.2.1 x hx) (htle u hu)
    have h := ih now (check_rate_limit w t).2 hpost.2.1 hub' hsort' hpost.2.2.2
    simpa [runChecks] using h

/-- C3: along any non-decreasing trace of call times for one client,
starting from the empty window a new client gets, the window left by the
last call (at time `now`) holds only timestamps strictly greater than
`now - RATE_LIMIT_WINDOW`, in non-decreasing order, and at most
`RATE_LIMIT_MAX` of them.  Quantifying over every non-decreasing trace
`ts ++ [now]` covers the state after every call of every such trace. -/
theorem window_invariant_preserved (ts : List ℚ) (now : ℚ)
    (hmono : List.Sorted (· ≤ ·) (ts ++ [now])) :
    (∀ t ∈ (runChecks [] (ts ++ [now])).2, now - RATE_LIMIT_WINDOW < t) ∧
      List.Sorted (· ≤ ·) (runChecks [] (ts ++ [now])).2 ∧
      (runChecks [] (ts ++ [now])).2.length ≤ RATE_LIMIT_MAX := by
  exact runChecks_inv ts now [] (by simp) (by simp) hmono (by simp)

/-- Witness for C3: two calls at times 0 and 1 leave the window `[0, 1]`,
which satisfies the invariant at `now = 1`. -/
theorem window_invariant_preserved_w :
    List.Sorted (· ≤ ·) ([(0 : ℚ)] ++ [1]) ∧
      ((∀ t ∈ (runChecks [] ([(0 : ℚ)] ++ [1])).2,
          (1 : ℚ) - RATE_LIMIT_WINDOW < t) ∧
        List.Sorted (· ≤ ·) (runChecks [] ([(0 : ℚ)] ++ [1])).2 ∧
        (runChecks [] ([(0 : ℚ)] ++ [1])).2.length ≤ RATE_LIMIT_MAX) := by
  exact ⟨by simp, window_invariant_preserved [0] 1 (by simp)⟩

/-- In a sorted list, the head bounds every member from below. -/
theorem headD_le_of_sorted {w : List ℚ} (hs : List.Sorted (· ≤ ·) w) :
    ∀ u ∈ w, w.headD 0 ≤ u := by
  cases w with
  | nil => simp
  | cons a rest =>
    intro u hu
    rcases List.mem_cons.mp hu with rfl | hur
    · simp
    · simpa using List.rel_of_sorted_cons hs u hur

/-- While the whole trace stays inside one `RATE_LIMIT_WINDOW`-length
interval `[t₀, t₀ + RATE_LIMIT_WINDOW)` and the accumulated window plus
the remaining calls fit under `RATE_LIMIT_MAX`, every call is allowed and
the window just accumulates the call times. -/
theorem runChecks_all_true :
    ∀ (ts w : List ℚ) (t₀ : ℚ),
      (∀ u ∈ w ++ ts, t₀ ≤ u ∧ u < t₀ + RATE_LIMIT_WINDOW) →
      (w ++ ts).length ≤ RATE_LIMIT_MAX →
      runChecks w ts = (List.replicate ts.length true, w ++ ts) := by
  intro ts
  induction ts with
  | nil => intro w t₀ _ _; simp [runChecks]
  | cons t ts ih =>
    intro w t₀ hin hlen
    have hint : t₀ ≤ t ∧ t < t₀ + RATE_LIMIT_WINDOW :=
      hin t (by simp)
    have hnoexp : ∀ u ∈ w, ¬ u ≤ t - RATE_LIMIT_WINDOW := by
      intro u hu
      have h1 : t₀ ≤ u := (hin u (List.mem_append_left _ hu)).1
      have h2 : t - RATE_LIMIT_WINDOW < t₀ := by linarith [hint.2]
      linarith
    have hprune : prune t w = w := prune_of_not_expired hnoexp
    have hwlen : w.length < RATE_LIMIT_MAX := by
      have : w.length + (ts.length + 1) ≤ RATE_LIMIT_MAX := by
        simpa [List.length_append, Nat.add_comm, Nat.add_left_comm] using hlen
      omega
    have hstep : check_rate_limit w t = ((true, none), w ++ [t]) := by
      simp [check_rate_limit, hprune, Nat.not_le.mpr hwlen]
    have hin' : ∀ u ∈ (w ++ [t]) ++ ts, t₀ ≤ u ∧ u < t₀ + RATE_LIMIT_WINDOW := by
      intro u hu
      apply hin
      simpa [List.append_assoc] using hu
    have hlen' : ((w ++ [t]) ++ ts).length ≤ RATE_LIMIT_MAX := by
      simpa [List.append_assoc] using hlen
    have hrest := ih (w ++ [t]) t₀ hin' hlen'
    simp [runChecks, hstep, hrest, List.replicate_succ, List.append_assoc]

/-- C2: if `RATE_LIMIT_MAX` calls from one client happen at non-decreasing
times all less than `RATE_LIMIT_WINDOW` past the oldest one, every one of
them is allowed, and a further call at any later time `now` still within
`RATE_LIMIT_WINDOW` of the oldest one is denied. -/
theorem quota_exhaustion_denies (ts : List ℚ) (now : ℚ)
    (hlen : ts.length = RATE_LIMIT_MAX)
    (hsort : List.Sorted (· ≤ ·) ts)
    (hspan : ∀ u ∈ ts, u < ts.headD 0 + RATE_LIMIT_WINDOW)
    (hle : ∀ u ∈ ts, u ≤ now)
    (hwin : now < ts.headD 0 + RATE_LIMIT_WINDOW) :
    (runChecks [] ts).1 = List.replicate RATE_LIMIT_MAX true ∧
      ((check_rate_limit (runChecks [] ts).2 now).1).1 = false := by
  have hrun : runChecks [] ts = (List.replicate ts.length true, [] ++ ts) := by
    apply runChecks_all_true ts [] (ts.headD 0)
    · intro u hu
      simp only [List.nil_append] at hu
      exact ⟨headD_le_of_sorted hsort u hu, hspan u hu⟩
    · simp [hlen]
  have hwnd : (runChecks [] ts).2 = ts := by simp [hrun]
  constructor
  · simp [hrun, hlen]
  · rw [hwnd]
    have hnoexp : ∀ u ∈ ts, ¬ u ≤ now - RATE_LIMIT_WINDOW := by
      intro u hu
      have h1 : ts.headD 0 ≤ u := headD_le_of_sorted hsort u hu
      have h2 : now - RATE_LIMIT_WINDOW < ts.headD 0 := by linarith
      linarith
    have hprune : prune now ts = ts := prune_of_not_expired hnoexp
    have hfull : RATE_LIMIT_MAX ≤ (prune now ts).length := by
      rw [hprune, hlen]
    simp [check_rate_limit, hfull]

set_option maxRecDepth 8000

/-- Witness for C2: 120 calls at time 0 are all allowed and a further
call at time 1 is denied. -/
theorem quota_exhaustion_denies_w :
    ((List.replicate 120 (0 : ℚ)).length = RATE_LIMIT_MAX ∧
        List.Sorted (· ≤ ·) (List.replicate 120 (0 : ℚ)) ∧
        (∀ u ∈ List.replicate 120 (0 : ℚ),
          u < (List.replicate 120 (0 : ℚ)).headD 0 + RATE_LIMIT_WINDOW) ∧
        (∀ u ∈ List.replicate 120 (0 : ℚ), u ≤ (1 : ℚ)) ∧
        (1 : ℚ) < (List.replicate 120 (0 : ℚ)).headD 0 + RATE_LIMIT_WINDOW) ∧
      ((runChecks [] (List.replicate 120 (0 : ℚ))).1 =
          List.replicate RATE_LIMIT_MAX true ∧
        ((check_rate_limit (runChecks [] (List.replicate 120 (0 : ℚ))).2 1).1).1 =
          false) := by
  have h0 : (List.replicate 120 (0 : ℚ)).headD 0 = 0 := rfl
  have hspan : ∀ u ∈ List.replicate 120 (0 : ℚ),
      u < (List.replicate 120 (0 : ℚ)).headD 0 + RATE_LIMIT_WINDOW := by
    intro u hu
    rw [List.eq_of_mem_replicate hu, h0]
    norm_num [RATE_LIMIT_WINDOW]
  have hwin : (1 : ℚ) < (List.replicate 120 (0 : ℚ)).headD 0 + RATE_LIMIT_WINDOW := by
    rw [h0]
    norm_num [RATE_LIMIT_WINDOW]
  have hle : ∀ u ∈ List.replicate 120 (0 : ℚ), u ≤ (1 : ℚ) := by
    intro u hu
    rw [List.eq_of_mem_replicate hu]
    norm_num
  exact ⟨⟨by decide, by decide, hspan, hle, hwin⟩,
    quota_exhaustion_denies (List.replicate 120 (0 : ℚ)) 1
      (by decide) (by decide) hspan hle hwin⟩

/-- The global `request_log` map (app.py line 24): a `defaultdict` from
client identifier to window, so the default value is the empty window. -/
def Store : Type := String → List ℚ

/-- The store a freshly started process has: every client maps to the
empty window (`defaultdict(lambda: deque())`). -/
def initStore : Store := fun _ => []

/-- `check_rate_limit` acting on the whole store: reading `request_log[ip]`
and mutating it in place is modelled by a functional update at `ip`. -/
def checkStore (s : Store) (ip : String) (now : ℚ) :
    (Bool × Option ℚ) × Store :=
  let r := check_rate_limit (s ip) now
  (r.1, Function.update s ip r.2)

/-- A sequence of rate-limit checks for various clients, threading the
store. -/
def runStore (s : Store) : List (String × ℚ) → Store
  | [] => s
  | c :: cs => runStore (checkStore s c.1 c.2).2 cs

/-- C5: any sequence of checks on clients other than `b` leaves `b`'s
window untouched, and `b`'s next decision (and window change) is exactly
what it would have been without those calls. -/
theorem distinct_clients_independent (s : Store) (calls : List (String × ℚ))
    (b : String) (nb : ℚ) (h : ∀ c ∈ calls, c.1 ≠ b) :
    runStore s calls b = s b ∧
      (checkStore (runStore s calls) b nb).1 = (checkStore s b nb).1 := by
  have hwin : runStore s calls b = s b := by
    induction calls generalizing s with
    | nil => rfl
    | cons c cs ih =>
      have hb : c.1 ≠ b := h c (by simp)
      have hstep : (checkStore s c.1 c.2).2 b = s b := by
        simp [checkStore, Function.update_noteq (Ne.symm hb)]
      have := ih (checkStore s c.1 c.2).2 (fun d hd => h d (by simp [hd]))
      simpa [runStore, hstep] using this
  refine ⟨hwin, ?_⟩
  simp [checkStore, hwin]

/-- Witness for C5: a call by client "a" does not change client "b"'s
window or next decision. -/
theorem distinct_clients_independent_w :
    (∀ c ∈ [(("a" : String), (0 : ℚ))], c.1 ≠ "b") ∧
      (runStore initStore [("a", 0)] "b" = initStore "b" ∧
        (checkStore (runStore initStore [("a", 0)]) "b" 1).1 =
          (checkStore initStore "b" 1).1) := by
  exact ⟨by decide,
    distinct_clients_independent initStore [("a", 0)] "b" 1 (by decide)⟩

/-- Python `int()` applied to a float, modelled on `ℚ`: truncation
toward zero (app.py line 69 does `int(retry_after)`). -/
def py_int (x : ℚ) : ℤ := if 0 ≤ x then ⌊x⌋ else ⌈x⌉

/-- `sanitize_text` (app.py lines 56–57): `s.strip()` — remove leading
and trailing whitespace.  Written over the character list so that it
evaluates on literals; `Char.isWhitespace` stands for Python's
whitespace class (the claims only turn on whether the result is empty). -/
def sanitize_text (s : String) : String :=
  String.mk
    (((s.toList.dropWhile Char.isWhitespace).reverse.dropWhile
        Char.isWhitespace).reverse)

/-- One element of `resp.choices` from the completion provider.
`message = none` models a choice whose `message` attribute is absent or
`None` (attribute access raises); `message = some content` models a
present message whose `content` is `content` (`none` standing for JSON
null).  `text = none` models `getattr(choice, "text", "")` finding no
usable value (attribute absent or `None`); `some t` a present string. -/
structure Choice where
  message : Option (Option String)
  text : Option String
  deriving DecidableEq

/-- A successful response object from the completion call. -/
structure Resp where
  choices : List Choice
  deriving DecidableEq

/-- The fixed fallback apology string (app.py line 105). -/
def fallback_apology : String := "Maaf — response parsing error."

/-- The reply-extraction block (app.py lines 99–105).  `Except.error`
models an exception escaping the inner `try/except` into the outer one:
that happens exactly when `resp.choices` is empty, because then the
`except` branch itself re-evaluates `resp.choices[0]` and the IndexError
propagates.  Otherwise extraction always produces a value: the message
content when the message attribute is readable, else the choice's `text`
attribute when it is a nonempty string, else the fallback apology. -/
def extractReply (resp : Resp) : Except String (Option String) :=
  match resp.choices with
  | [] => Except.error "list index out of range"
  | c :: _ =>
    match c.message with
    | some content => Except.ok content
    | none =>
      Except.ok (some (match c.text with
        | some t => if t = "" then fallback_apology else t
        | none => fallback_apology))

/-- The JSON bodies the `/chat` endpoint can answer with. -/
inductive RespBody where
  | rateLimited (retry_after_seconds : ℤ)
  | invalidRequest (message : String)
  | reply (text : Option String)
  | openaiError (message : String)
  deriving DecidableEq

/-- Outcome of one `/chat` invocation: HTTP status, JSON body, how many
times the external completion capability was invoked, and the lines
printed to the server log. -/
structure ChatResult where
  status : ℕ
  body : RespBody
  calls : ℕ
  log : List String
  deriving DecidableEq

/-- The `/chat` handler (app.py lines 64–113).  The request body
`data` is `request.get_json(silent=True)`: `none` when absent or
unparseable, otherwise a JSON object modelled as a key/value list
(string values suffice for the claims).  `outcome` is the result of the
`client.chat.completions.create` call: `Except.error e` models a raised
exception with `str(e) = e`.  The handler performs, in source order: the
rate-limit check (429 on denial, with `int(retry_after)`); the
`not data or "message" not in data` test (400); the
`sanitize_text` emptiness test (400); then the single completion call,
mapping a raised exception — including the re-raised IndexError from
`extractReply` — to a logged 500 `openai_error`, and an extracted value
to a 200 `reply`. -/
def chat (s : Store) (ip : String) (now : ℚ)
    (data : Option (List (String × String)))
    (outcome : Except String Resp) : ChatResult × Store :=
  let rl := checkStore s ip now
  let s' := rl.2
  if rl.1.1 then
    match data with
    | none =>
      (⟨400, RespBody.invalidRequest "Provide JSON body with \x27message\x27 field.",
        0, []⟩, s')
    | some kvs =>
      if kvs.isEmpty || (kvs.lookup "message").isNone then
        (⟨400, RespBody.invalidRequest "Provide JSON body with \x27message\x27 field.",
          0, []⟩, s')
      else
        let user_message := sanitize_text ((kvs.lookup "message").getD "")
        if user_message = "" then
          (⟨400, RespBody.invalidRequest "Empty message.", 0, []⟩, s')
        else
          match outcome with
          | Except.ok resp =>
            match extractReply resp with
            | Except.ok v => (⟨200, RespBody.reply v, 1, []⟩, s')
            | Except.error e =>
              (⟨500, RespBody.openaiError e, 1, ["OpenAI error: " ++ e]⟩, s')
          | Except.error e =>
            (⟨500, RespBody.openaiError e, 1, ["OpenAI error: " ++ e]⟩, s')
  else
    (⟨429, RespBody.rateLimited (py_int (rl.1.2.getD 0)), 0, []⟩, s')

/-- The ways a request body fails the handler's validation: absent (or
unparseable) body, empty object, no `message` key, or a message that is
empty after stripping whitespace. -/
def invalidBody (data : Option (List (String × String))) : Prop :=
  data = none ∨ ∃ kvs, data = some kvs ∧
    (kvs = [] ∨ kvs.lookup "message" = none ∨
      sanitize_text ((kvs.lookup "message").getD "") = "")

/-- On an allowed call the new window is the pruned one plus `now`. -/
theorem check_window_of_true {w : List ℚ} {now : ℚ}
    (h : ((check_rate_limit w now).1).1 = true) :
    (check_rate_limit w now).2 = prune now w ++ [now] := by
  by_cases hfull : RATE_LIMIT_MAX ≤ (prune now w).length
  · simp [check_rate_limit, hfull] at h
  · simp [check_rate_limit, hfull]

/-- A denial means the pruned window was full and determines
`retry_after`. -/
theorem check_deny_elim {w : List ℚ} {now r : ℚ}
    (h : (check_rate_limit w now).1 = (false, some r)) :
    RATE_LIMIT_MAX ≤ (prune now w).length ∧
      r = RATE_LIMIT_WINDOW - (now - (prune now w).headD 0) := by
  by_cases hfull : RATE_LIMIT_MAX ≤ (prune now w).length
  · refine ⟨hfull, ?_⟩
    simp only [check_rate_limit, if_pos hfull] at h
    exact (Option.some_inj.mp (congrArg Prod.snd h)).symm
  · simp [check_rate_limit, hfull] at h

/-- C4: under per-client non-decreasing time (every recorded timestamp is
at most `now`), a denial's `retry_after` lies in `[0, RATE_LIMIT_WINDOW]`,
and the 429 body carries exactly `int(retry_after)`
(`py_int retry_after`). -/
theorem retry_after_bounded (s : Store) (ip : String) (now : ℚ) (r : ℚ)
    (data : Option (List (String × String))) (o : Except String Resp)
    (hub : ∀ t ∈ s ip, t ≤ now)
    (hd : (check_rate_limit (s ip) now).1 = (false, some r)) :
    0 ≤ r ∧ r ≤ RATE_LIMIT_WINDOW ∧
      (chat s ip now data o).1 =
        ⟨429, RespBody.rateLimited (py_int r), 0, []⟩ := by
  obtain ⟨hfull, hr⟩ := check_deny_elim hd
  have hne : prune now (s ip) ≠ [] := by
    intro hnil
    rw [hnil] at hfull
    simp [RATE_LIMIT_MAX] at hfull
  have hhead : now - RATE_LIMIT_WINDOW < (prune now (s ip)).headD 0 := by
    rcases prune_head now (s ip) with h | h
    · exact absurd h hne
    · exact lt_of_not_ge h
  have hub0 : (prune now (s ip)).headD 0 ≤ now :=
    hub _ (mem_prune (headD_mem hne))
  refine ⟨by rw [hr]; linarith, by rw [hr]; linarith, ?_⟩
  have hrl1 : ((checkStore s ip now).1).1 = false := by
    simp [checkStore, hd]
  have hrl2 : ((checkStore s ip now).1).2 = some r := by
    simp [checkStore, hd]
  simp [chat, hrl1, hrl2]

/-- Store with an exhausted window for every client: 120 requests
recorded at time 0. -/
def fullStore : Store := fun _ => List.replicate 120 (0 : ℚ)

/-- Witness for C4: with 120 requests recorded at time 0, a call at time
1 is denied with `retry_after = 3599`, in bounds, and the 429 body holds
its truncation. -/
theorem retry_after_bounded_w :
    ((∀ t ∈ fullStore "c", t ≤ (1 : ℚ)) ∧
        (check_rate_limit (fullStore "c") 1).1 =
          (false, some (RATE_LIMIT_WINDOW - (1 - 0)))) ∧
      (0 ≤ RATE_LIMIT_WINDOW - ((1 : ℚ) - 0) ∧
        RATE_LIMIT_WINDOW - ((1 : ℚ) - 0) ≤ RATE_LIMIT_WINDOW ∧
        (chat fullStore "c" 1 none (Except.error "boom")).1 =
          ⟨429, RespBody.rateLimited (py_int (RATE_LIMIT_WINDOW - (1 - 0))),
            0, []⟩) := by
  have hub : ∀ t ∈ fullStore "c", t ≤ (1 : ℚ) := by
    intro t ht
    rw [List.eq_of_mem_replicate ht]
    norm_num
  have hprune : prune 1 (fullStore "c") = List.replicate 120 (0 : ℚ) := by
    apply prune_of_not_expired
    intro t ht
    rw [List.eq_of_mem_replicate ht]
    norm_num [RATE_LIMIT_WINDOW]
  have h0 : (List.replicate 120 (0 : ℚ)).headD 0 = 0 := rfl
  have hd : (check_rate_limit (fullStore "c") 1).1 =
      (false, some (RATE_LIMIT_WINDOW - (1 - 0))) := by
    simp [check_rate_limit, hprune, h0, RATE_LIMIT_MAX]
  exact ⟨⟨hub, hd⟩,
    retry_after_bounded fullStore "c" 1 _ none (Except.error "boom") hub hd⟩

/-- C6: a request that passes the rate limiter but has an invalid body
(no body, empty object, no message key, or whitespace-only message) gets
a 400 `invalid_request` and the completion capability is never invoked. -/
theorem invalid_request_rejected (s : Store) (ip : String) (now : ℚ)
    (data : Option (List (String × String))) (o : Except String Resp)
    (hadm : ((check_rate_limit (s ip) now).1).1 = true)
    (hbad : invalidBody data) :
    (chat s ip now data o).1.status = 400 ∧
      (∃ m, (chat s ip now data o).1.body = RespBody.invalidRequest m) ∧
      (chat s ip now data o).1.calls = 0 := by
  have hrl : ((checkStore s ip now).1).1 = true := hadm
  have hgoal : ∀ m, (chat s ip now data o).1 =
      ⟨400, RespBody.invalidRequest m, 0, []⟩ →
      (chat s ip now data o).1.status = 400 ∧
        (∃ m, (chat s ip now data o).1.body = RespBody.invalidRequest m) ∧
        (chat s ip now data o).1.calls = 0 := by
    intro m hchat
    rw [hchat]
    exact ⟨rfl, ⟨m, rfl⟩, rfl⟩
  rcases hbad with h | ⟨kvs, hk, hcase⟩
  · subst h
    exact hgoal "Provide JSON body with \x27message\x27 field." (by simp [chat, hrl])
  · subst hk
    rcases hcase with h | h | h
    · subst h
      exact hgoal "Provide JSON body with \x27message\x27 field." (by simp [chat, hrl])
    · exact hgoal "Provide JSON body with \x27message\x27 field." (by simp [chat, hrl, h])
    · by_cases hemp : (kvs.isEmpty || (kvs.lookup "message").isNone) = true
      · exact hgoal "Provide JSON body with \x27message\x27 field." (by simp [chat, hrl, hemp])
      · exact hgoal "Empty message." (by simp [chat, hrl, hemp, h])

/-- Witness for C6: an admitted request with no JSON body gets a 400 and
zero completion calls. -/
theorem invalid_request_rejected_w :
    (((check_rate_limit (initStore "c") 0).1).1 = true ∧ invalidBody none) ∧
      ((chat initStore "c" 0 none (Except.error "x")).1.status = 400 ∧
        (∃ m, (chat initStore "c" 0 none (Except.error "x")).1.body =
          RespBody.invalidRequest m) ∧
        (chat initStore "c" 0 none (Except.error "x")).1.calls = 0) :=
  ⟨⟨by decide, Or.inl rfl⟩,
    invalid_request_rejected initStore "c" 0 none (Except.error "x")
      (by decide) (Or.inl rfl)⟩

/-- A key/value list in which a lookup succeeds is nonempty. -/
theorem isEmpty_false_of_lookup {kvs : List (String × String)} {m : String}
    (h : kvs.lookup "message" = some m) : kvs.isEmpty = false := by
  cases kvs with
  | nil => simp [List.lookup] at h
  | cons a l => rfl

/-- C7 counterexample: a success response whose `choices` list is empty
does not get the fallback apology — the IndexError raised again inside
the inner `except` block escapes to the outer handler, which answers
500 `openai_error`, not 200. -/
theorem malformed_success_cex :
    (chat initStore "c" 0 (some [("message", "hi")])
        (Except.ok ⟨[]⟩)).1.status = 500 ∧
      (chat initStore "c" 0 (some [("message", "hi")])
          (Except.ok ⟨[]⟩)).1.body =
        RespBody.openaiError "list index out of range" ∧
      ¬ (chat initStore "c" 0 (some [("message", "hi")])
          (Except.ok ⟨[]⟩)).1.status = 200 := by
  decide

/-- C7 (amended): for an admitted, well-formed request, a success
response with at least one choice whose first choice permits no text
extraction (no readable message, and no usable `text` attribute) is
answered 200 with the fixed fallback apology; but a success response
with an empty `choices` list is answered 500 `openai_error`. -/
theorem malformed_success_fallback (s : Store) (ip : String) (now : ℚ)
    (kvs : List (String × String)) (m : String) (resp : Resp)
    (hadm : ((check_rate_limit (s ip) now).1).1 = true)
    (hlk : kvs.lookup "message" = some m)
    (hm : sanitize_text m ≠ "") :
    (resp.choices = [] →
      (chat s ip now (some kvs) (Except.ok resp)).1 =
        ⟨500, RespBody.openaiError "list index out of range", 1,
          ["OpenAI error: " ++ "list index out of range"]⟩) ∧
    (∀ c cs, resp.choices = c :: cs → c.message = none →
      (c.text = none ∨ c.text = some "") →
      (chat s ip now (some kvs) (Except.ok resp)).1 =
        ⟨200, RespBody.reply (some fallback_apology), 1, []⟩) := by
  have hrl : ((checkStore s ip now).1).1 = true := hadm
  have hemp := isEmpty_false_of_lookup hlk
  constructor
  · intro h
    have hext : extractReply resp = Except.error "list index out of range" := by
      simp [extractReply, h]
    simp [chat, hrl, hemp, hlk, hm, hext]
  · intro c cs h hmsg htext
    have hext : extractReply resp = Except.ok (some fallback_apology) := by
      rcases htext with ht | ht
      · simp [extractReply, h, hmsg, ht]
      · simp [extractReply, h, hmsg, ht]
    simp [chat, hrl, hemp, hlk, hm, hext]

/-- Witness for the amended C7: a first choice with no message and no
text attribute yields 200 with the apology. -/
theorem malformed_success_fallback_w :
    (((check_rate_limit (initStore "c") 0).1).1 = true ∧
        ([(("message" : String), ("hi" : String))].lookup "message") = some "hi" ∧
        sanitize_text "hi" ≠ "") ∧
      ((Resp.mk [⟨none, none⟩]).choices = [] →
        (chat initStore "c" 0 (some [("message", "hi")])
            (Except.ok (Resp.mk [⟨none, none⟩]))).1 =
          ⟨500, RespBody.openaiError "list index out of range", 1,
            ["OpenAI error: " ++ "list index out of range"]⟩) ∧
      (∀ c cs, (Resp.mk [⟨none, none⟩]).choices = c :: cs →
        c.message = none → (c.text = none ∨ c.text = some "") →
        (chat initStore "c" 0 (some [("message", "hi")])
            (Except.ok (Resp.mk [⟨none, none⟩]))).1 =
          ⟨200, RespBody.reply (some fallback_apology), 1, []⟩) := by
  refine ⟨⟨by decide, rfl, by decide⟩, ?_⟩
  exact malformed_success_fallback initStore "c" 0 [("message", "hi")] "hi"
    (Resp.mk [⟨none, none⟩]) (by decide) rfl (by decide)

/-- C8: for an admitted, well-formed request, a raised exception from
the completion call (with detail string `e`) is answered
500 `{error: openai_error, message: e}`, the capability is invoked
exactly once (no retry), and the failure is printed to the log. -/
theorem external_failure_maps_500 (s : Store) (ip : String) (now : ℚ)
    (kvs : List (String × String)) (m e : String)
    (hadm : ((check_rate_limit (s ip) now).1).1 = true)
    (hlk : kvs.lookup "message" = some m)
    (hm : sanitize_text m ≠ "") :
    (chat s ip now (some kvs) (Except.error e)).1 =
      ⟨500, RespBody.openaiError e, 1, ["OpenAI error: " ++ e]⟩ := by
  have hrl : ((checkStore s ip now).1).1 = true := hadm
  have hemp := isEmpty_false_of_lookup hlk
  simp [chat, hrl, hemp, hlk, hm]

/-- Witness for C8: a concrete provider failure is relayed as a logged
500 with the failure detail. -/
theorem external_failure_maps_500_w :
    (((check_rate_limit (initStore "c") 0).1).1 = true ∧
        ([(("message" : String), ("hi" : String))].lookup "message") = some "hi" ∧
        sanitize_text "hi" ≠ "") ∧
      (chat initStore "c" 0 (some [("message", "hi")])
          (Except.error "boom")).1 =
        ⟨500, RespBody.openaiError "boom", 1, ["OpenAI error: " ++ "boom"]⟩ :=
  ⟨⟨by decide, rfl, by decide⟩,
    external_failure_maps_500 initStore "c" 0 [("message", "hi")] "hi" "boom"
      (by decide) rfl (by decide)⟩

/-- C10: the admitted request's timestamp is appended by the rate-limit
check, before body validation; a request then rejected 400 has still
consumed the slot — the final window for that client is the pruned
window plus `now`, with no rollback. -/
theorem slot_consumed_before_validation (s : Store) (ip : String) (now : ℚ)
    (data : Option (List (String × String))) (o : Except String Resp)
    (hadm : ((check_rate_limit (s ip) now).1).1 = true)
    (hbad : invalidBody data) :
    (chat s ip now data o).1.status = 400 ∧
      (chat s ip now data o).2 ip = prune now (s ip) ++ [now] := by
  have hrl : ((checkStore s ip now).1).1 = true := hadm
  have hstore : (checkStore s ip now).2 ip = prune now (s ip) ++ [now] := by
    simp [checkStore, check_window_of_true hadm]
  have hgoal : ∀ m, chat s ip now data o =
      (⟨400, RespBody.invalidRequest m, 0, []⟩, (checkStore s ip now).2) →
      (chat s ip now data o).1.status = 400 ∧
        (chat s ip now data o).2 ip = prune now (s ip) ++ [now] := by
    intro m hchat
    rw [hchat]
    exact ⟨rfl, hstore⟩
  rcases hbad with h | ⟨kvs, hk, hcase⟩
  · subst h
    exact hgoal "Provide JSON body with \x27message\x27 field." (by simp [chat, hrl])
  · subst hk
    rcases hcase with h | h | h
    · subst h
      exact hgoal "Provide JSON body with \x27message\x27 field." (by simp [chat, hrl])
    · exact hgoal "Provide JSON body with \x27message\x27 field." (by simp [chat, hrl, h])
    · by_cases hemp : (kvs.isEmpty || (kvs.lookup "message").isNone) = true
      · exact hgoal "Provide JSON body with \x27message\x27 field." (by simp [chat, hrl, hemp])
      · exact hgoal "Empty message." (by simp [chat, hrl, hemp, h])

/-- Witness for C10: a whitespace-only message is rejected 400, yet the
client's window has recorded the request's timestamp. -/
theorem slot_consumed_before_validation_w :
    (((check_rate_limit (initStore "c") 0).1).1 = true ∧
        invalidBody (some [("message", " ")])) ∧
      ((chat initStore "c" 0 (some [("message", " ")])
          (Except.error "x")).1.status = 400 ∧
        (chat initStore "c" 0 (some [("message", " ")])
            (Except.error "x")).2 "c" = prune 0 (initStore "c") ++ [0]) := by
  have hbad : invalidBody (some [("message", " ")]) :=
    Or.inr ⟨[("message", " ")], rfl, Or.inr (Or.inr (by decide))⟩
  exact ⟨⟨by decide, hbad⟩,
    slot_consumed_before_validation initStore "c" 0 (some [("message", " ")])
      (Except.error "x") (by decide) hbad⟩
